import Mathlib

/-!
Formal model of `snapcraft/repo.py` (Ubuntu package provisioning).

The Python module drives an apt cache to select, fetch and unpack Ubuntu
packages into a target root, and repairs absolute symlinks afterwards.
We shallow-embed the decision logic:

* `Ubuntu.get` — the selection pass (`makedirs`, manifest loading, the
  marking loop with `PackageNotFoundError`, and the exclusion loop).
  The apt index is a list of `Pkg` records; apt's own dependency
  resolution (triggered by `mark_install`) is an opaque `resolver`
  function supplied as a parameter.  The observable side effects
  (directory creation, "Skipping ..." diagnostics, fetching) are
  recorded in an `Action` trace.
* `getGeoipCountryCode` — `_get_geoip_country_code_prefix`, with the
  network/XML outcome reified as a `GeoResponse`.
* `substTemplate` / `formatSourcesList` — `_format_sources_list` over
  the `string.Template` token structure of `_DEFAULT_SOURCES`.
* `Ubuntu.unpack` — the per-archive `dpkg-deb --extract` loop.
* `fixSymlinks` — `_fix_symlinks`, over an explicit filesystem model
  (paths are component lists; `existsFS` follows symlink chains with
  fuel like `os.path.exists`; the `os.walk` visiting order is an
  explicit parameter since Python's directory order is unspecified).

Python's substring test `a in b` on strings is modelled by `isSegOf`;
`str.strip()` on manifest lines is modelled by `String.trim`.
-/

set_option maxRecDepth 100000
set_option maxHeartbeats 1000000

namespace SnapcraftRepo

/-- Python `a in b` for strings: `a.data` occurs contiguously in `b.data`. -/
def isSegOf (p : List Char) : List Char → Bool
  | [] => p.isEmpty
  | c :: rest => p.isPrefixOf (c :: rest) || isSegOf p rest

/-- Propositional form of the Python substring test used in `repo.py`. -/
abbrev pyInStr (a b : String) : Prop := isSegOf a.data b.data = true

/-- Marking state of a package in the apt cache session. -/
inductive Marking where
  | install
  | keep
  | untouched
  deriving DecidableEq, Repr

/-- A package as seen by the exclusion loop: its name, the candidate's
priority string, and its current marking. -/
structure Pkg where
  name : String
  priority : String
  marking : Marking
  deriving DecidableEq, Repr

/-- Observable side effects of `Ubuntu.get`, in program order. -/
inductive Action where
  | mkdirDownload
  | markInstall (name : String)
  | skipEssential (name : String)
  | skipManifest (name : String)
  | fetchArchives
  deriving DecidableEq, Repr

/-- Python `name in self.apt_cache`: the index knows the package name. -/
def hasPkg (cache : List Pkg) (n : String) : Bool :=
  cache.any fun p => p.name == n

/-- Effect of `self.apt_cache[n].mark_install()` on the session state
(the dependency-resolution side effects are the `resolver` parameter of
`Ubuntu.get`). -/
def markInstallOn (cache : List Pkg) (n : String) : List Pkg :=
  cache.map fun p => if p.name = n then { p with marking := Marking.install } else p

/-- The marking loop of `Ubuntu.get`: marks each requested name in order
and aborts with the first name the index does not know
(`KeyError` → `PackageNotFoundError(name)`). -/
def markRequested : List Pkg → List String → List Action × Except String (List Pkg)
  | cache, [] => ([], Except.ok cache)
  | cache, n :: ns =>
    if hasPkg cache n then
      let r := markRequested (markInstallOn cache n) ns
      (Action.markInstall n :: r.1, r.2)
    else ([], Except.error n)

/-- Python `str.strip()`: drop ASCII whitespace from both ends. -/
def pyStrip (s : String) : String :=
  String.mk (((s.data.dropWhile Char.isWhitespace).reverse.dropWhile
    Char.isWhitespace).reverse)

/-- Model of `Ubuntu._manifest_dep_names`: the stripped lines of `manifest.txt`
that name packages known to the index. -/
def manifestDepNames (manifestLines : List String) (cache : List Pkg) : List String :=
  (manifestLines.map pyStrip).filter fun n => hasPkg cache n

/-- One iteration of the exclusion loop of `Ubuntu.get`.  Note the first
branch is Python's `pkg.candidate.priority in 'essential'`, a substring
test on the string `'essential'`. -/
def excludeStep (requested mdn : List String) (p : Pkg) : Pkg × List Action :=
  if pyInStr p.priority "essential" ∧ p.name ∉ requested then
    ({ p with marking := Marking.keep }, [Action.skipEssential p.name])
  else if p.name ∈ mdn ∧ p.name ∉ requested then
    ({ p with marking := Marking.keep }, [Action.skipManifest p.name])
  else (p, [])

/-- The exclusion loop over every package known to the index. -/
def exclusionPass (requested mdn : List String) : List Pkg → List Pkg × List Action
  | [] => ([], [])
  | p :: rest =>
    let s := excludeStep requested mdn p
    let r := exclusionPass requested mdn rest
    (s.1 :: r.1, s.2 ++ r.2)

/-- Model of `Ubuntu.get(package_names)`.  In program order: `os.makedirs` on the
download directory, `_manifest_dep_names`, the marking loop (which can
raise `PackageNotFoundError`), then — only on success — the exclusion
loop and `fetch_archives`.  `resolver` stands for the apt index's own
dependency resolution of the marked set. -/
def Ubuntu.get (cache : List Pkg) (requested manifestLines : List String)
    (resolver : List Pkg → List Pkg) : List Action × Except String (List Pkg) :=
  let mdn := manifestDepNames manifestLines cache
  let m := markRequested cache requested
  match m.2 with
  | Except.error n => (Action.mkdirDownload :: m.1, Except.error n)
  | Except.ok c1 =>
    let ex := exclusionPass requested mdn (resolver c1)
    (Action.mkdirDownload :: m.1 ++ ex.2 ++ [Action.fetchArchives], Except.ok ex.1)

/-- The raw `_DEFAULT_SOURCES` template text of `repo.py`. -/
def defaultSourcesText : String :=
"deb http://$\x7bprefix\x7d.ubuntu.com/$\x7bsuffix\x7d/ $\x7brelease\x7d main restricted
deb http://$\x7bprefix\x7d.ubuntu.com/$\x7bsuffix\x7d/ $\x7brelease\x7d-updates main restricted
deb http://$\x7bprefix\x7d.ubuntu.com/$\x7bsuffix\x7d/ $\x7brelease\x7d universe
deb http://$\x7bprefix\x7d.ubuntu.com/$\x7bsuffix\x7d/ $\x7brelease\x7d-updates universe
deb http://$\x7bprefix\x7d.ubuntu.com/$\x7bsuffix\x7d/ $\x7brelease\x7d multiverse
deb http://$\x7bprefix\x7d.ubuntu.com/$\x7bsuffix\x7d/ $\x7brelease\x7d-updates multiverse
deb http://$\x7bsecurity\x7d.ubuntu.com/$\x7bsuffix\x7d $\x7brelease\x7d-security main restricted
deb http://$\x7bsecurity\x7d.ubuntu.com/$\x7bsuffix\x7d $\x7brelease\x7d-security universe
deb http://$\x7bsecurity\x7d.ubuntu.com/$\x7bsuffix\x7d $\x7brelease\x7d-security multiverse
"

/-- Model of `Ubuntu.__init__`: `sources = sources or _DEFAULT_SOURCES`.  A `None`
argument is `none`; any string argument is `some s`, and Python
truthiness makes exactly the empty string falsy. -/
def initSources : Option String → String
  | none => defaultSourcesText
  | some s => if s = "" then defaultSourcesText else s

/-- Outcome of the geo-lookup request in `_get_geoip_country_code_prefix`:
network failure (`URLError`), XML parse failure (`ParseError`), or a
parsed document whose `CountryCode` element is absent (`none`), present
but empty (`some none`, i.e. `cc.text is None`), or present with text. -/
inductive GeoResponse where
  | netFailure
  | malformedXml
  | xmlDoc (countryCode : Option (Option String))
  deriving DecidableEq, Repr

/-- Model of the geo lookup function.  The `try` block catches only
`ElementTree.ParseError` and `urllib.error.URLError`; when the
`CountryCode` element exists but has no text, `cc.text.lower()` raises
`AttributeError` (`'NoneType' object has no attribute 'lower'`), which
escapes.  An escaping exception is modelled as `Except.error` with the
exception's name. -/
def getGeoipCountryCode : GeoResponse → Except String String
  | GeoResponse.netFailure => Except.ok ""
  | GeoResponse.malformedXml => Except.ok ""
  | GeoResponse.xmlDoc none => Except.ok ""
  | GeoResponse.xmlDoc (some none) => Except.error "AttributeError"
  | GeoResponse.xmlDoc (some (some s)) => Except.ok s.toLower

/-- A staged `.deb` archive as seen by `Ubuntu.unpack`: its path and
whether `dpkg-deb --extract` exits zero on it. -/
structure Archive where
  path : String
  ok : Bool
  deriving DecidableEq, Repr

/-- The extraction loop of `Ubuntu.unpack`: archives are processed in
order; a failing extraction raises `UnpackError(pkg)` immediately.
Returns the paths successfully extracted (they stay on disk) and the
error, if any. -/
def unpackGo : List Archive → List String × Option String
  | [] => ([], none)
  | a :: rest =>
    if a.ok then
      let r := unpackGo rest
      (a.path :: r.1, r.2)
    else ([], some a.path)

/-- Model of `Ubuntu.unpack(rootdir)`: run the extraction loop, then run
`_fix_symlinks` only if no archive failed (the raise skips it).  The
third component records whether symlink repair ran. -/
def Ubuntu.unpack (archives : List Archive) : List String × Option String × Bool :=
  let r := unpackGo archives
  (r.1, r.2, r.2.isNone)

/-! Theorems about the selection, geo-lookup, sources and unpack models. -/

/-- C9: a falsy `sources` argument to `Ubuntu.__init__` (either `None` or
the empty string) is silently replaced by the built-in default template,
so an explicitly supplied empty custom source list can never be used
as-is, while any non-empty string is used unchanged. -/
theorem C9_falsy_sources_default :
    initSources none = defaultSourcesText ∧
    initSources (some "") = defaultSourcesText ∧
    ∀ s : String, s ≠ "" → initSources (some s) = s := by
  refine ⟨rfl, rfl, ?_⟩
  intro s hs
  simp [initSources, hs]

theorem C9_witness :
    initSources (some "deb http://example.org/repo custom main") =
      "deb http://example.org/repo custom main" :=
  C9_falsy_sources_default.2.2 _ (by decide)

/-- C3 counterexample: the claim says the geo lookup never raises, but
when the response parses and contains an empty `CountryCode` element
(`cc.text is None`), `cc.text.lower()` raises `AttributeError`, which is
not among the exceptions the `except` clause catches. -/
theorem C3_counterexample :
    getGeoipCountryCode (GeoResponse.xmlDoc (some none)) =
      Except.error "AttributeError" := rfl

/-- C3 amended: the lookup returns the empty string on network failure,
malformed XML, or an absent `CountryCode` element, and these (together
with the successful case) are the only non-raising outcomes: it raises
exactly when the `CountryCode` element is present but has no text. -/
theorem C3_geo_lookup_amended :
    getGeoipCountryCode GeoResponse.netFailure = Except.ok "" ∧
    getGeoipCountryCode GeoResponse.malformedXml = Except.ok "" ∧
    getGeoipCountryCode (GeoResponse.xmlDoc none) = Except.ok "" ∧
    ∀ r : GeoResponse,
      (∃ e, getGeoipCountryCode r = Except.error e) ↔
        r = GeoResponse.xmlDoc (some none) := by
  refine ⟨rfl, rfl, rfl, ?_⟩
  intro r
  constructor
  · rintro ⟨e, he⟩
    rcases r with _ | _ | (_ | (_ | s)) <;> simp_all [getGeoipCountryCode]
  · rintro rfl
    exact ⟨"AttributeError", rfl⟩

theorem C3_witness :
    (∃ e, getGeoipCountryCode (GeoResponse.xmlDoc (some none)) = Except.error e) ∧
    getGeoipCountryCode GeoResponse.netFailure = Except.ok "" :=
  ⟨(C3_geo_lookup_amended.2.2.2 _).mpr rfl, C3_geo_lookup_amended.1⟩

/-- Helper for C7: the extraction loop stops at the first failing
archive, keeping exactly the archives extracted before it. -/
theorem unpackGo_first_failure (archives : List Archive) (bad : Archive)
    (h : archives.find? (fun a => !a.ok) = some bad) :
    unpackGo archives =
      ((archives.takeWhile fun a => a.ok).map Archive.path, some bad.path) := by
  induction archives with
  | nil => simp at h
  | cons a rest ih =>
    by_cases hok : a.ok = true
    · rw [List.find?_cons_of_neg _ (by simp [hok])] at h
      simp [unpackGo, hok, List.takeWhile_cons_of_pos hok, ih h]
    · have hfst : bad = a := by
        rw [List.find?_cons_of_pos _ (by simp [hok])] at h
        exact (Option.some.inj h).symm
      simp [unpackGo, hok, hfst, List.takeWhile_cons_of_neg hok]

/-- C7: `Ubuntu.unpack` extracts staged archives in order; on the first
archive whose extraction exits non-zero it raises `UnpackError` with
that archive's path, extracts no later archive, keeps the files already
extracted from earlier archives (no rollback), and does not run symlink
repair. -/
theorem C7_unpack_first_failure (archives : List Archive) (bad : Archive)
    (h : archives.find? (fun a => !a.ok) = some bad) :
    Ubuntu.unpack archives =
      ((archives.takeWhile fun a => a.ok).map Archive.path, some bad.path, false) := by
  unfold Ubuntu.unpack
  rw [unpackGo_first_failure archives bad h]
  rfl

theorem C7_witness :
    Ubuntu.unpack
      [{ path := "a.deb", ok := true }, { path := "b.deb", ok := false },
        { path := "c.deb", ok := true }] = (["a.deb"], some "b.deb", false) := by
  have h := C7_unpack_first_failure
    [{ path := "a.deb", ok := true }, { path := "b.deb", ok := false },
      { path := "c.deb", ok := true }] { path := "b.deb", ok := false } (by decide)
  exact h

/-- C10: `Ubuntu.get` creates the download directory as its very first
action, before validating any requested name, so even when it fails
with `PackageNotFoundError` the staging directory has been created. -/
theorem C10_mkdir_first (cache : List Pkg) (requested manifestLines : List String)
    (resolver : List Pkg → List Pkg) :
    (Ubuntu.get cache requested manifestLines resolver).1.head? =
      some Action.mkdirDownload ∧
    ∀ n, (Ubuntu.get cache requested manifestLines resolver).2 = Except.error n →
      Action.mkdirDownload ∈ (Ubuntu.get cache requested manifestLines resolver).1 := by
  unfold Ubuntu.get
  rcases hm : (markRequested cache requested).2 with nn | c1 <;> simp [hm]

theorem C10_witness :
    (Ubuntu.get [] ["x"] [] (fun l => l)).1.head? = some Action.mkdirDownload ∧
    Action.mkdirDownload ∈ (Ubuntu.get [] ["x"] [] (fun l => l)).1 :=
  ⟨(C10_mkdir_first [] ["x"] [] (fun l => l)).1,
    (C10_mkdir_first [] ["x"] [] (fun l => l)).2 "x" rfl⟩

/-- Marking a package for install does not change which names the index
knows. -/
theorem hasPkg_markInstallOn (cache : List Pkg) (n m : String) :
    hasPkg (markInstallOn cache n) m = hasPkg cache m := by
  induction cache with
  | nil => rfl
  | cons p rest ih =>
    simp only [markInstallOn, List.map_cons, hasPkg, List.any_cons] at ih ⊢
    rw [ih]
    by_cases h : p.name = n <;> simp [h]

/-- The marking loop fails with `n` exactly when `n` is the first
requested name unknown to the index. -/
theorem markRequested_error_iff (requested : List String) : ∀ (cache : List Pkg) (n : String),
    (markRequested cache requested).2 = Except.error n ↔
      requested.find? (fun m => !hasPkg cache m) = some n := by
  induction requested with
  | nil => intro cache n; simp [markRequested]
  | cons r rs ih =>
    intro cache n
    by_cases h : hasPkg cache r = true
    · rw [List.find?_cons_of_neg _ (by simp [h])]
      simp only [markRequested, h, if_true]
      rw [ih (markInstallOn cache r) n]
      simp only [hasPkg_markInstallOn]
    · rw [List.find?_cons_of_pos _ (by simp [h])]
      simp [markRequested, h, eq_comm]

/-- Every action emitted by the marking loop is a `markInstall`. -/
theorem markRequested_trace_installs (requested : List String) : ∀ (cache : List Pkg),
    ∀ a ∈ (markRequested cache requested).1, ∃ m, a = Action.markInstall m := by
  induction requested with
  | nil => intro cache a ha; simp [markRequested] at ha
  | cons r rs ih =>
    intro cache a ha
    by_cases h : hasPkg cache r = true
    · simp only [markRequested, h, if_true, List.mem_cons] at ha
      rcases ha with rfl | ha
      · exact ⟨r, rfl⟩
      · exact ih (markInstallOn cache r) a ha
    · simp [markRequested, h] at ha

/-- C2: when some requested name is absent from the index, `Ubuntu.get`
raises `PackageNotFoundError` carrying exactly the first missing name
(and only then), and the error occurs before any exclusion logic runs:
the action trace contains no skip-essential or skip-manifest event. -/
theorem C2_missing_name_error (cache : List Pkg) (requested manifestLines : List String)
    (resolver : List Pkg → List Pkg) (n : String) :
    ((Ubuntu.get cache requested manifestLines resolver).2 = Except.error n ↔
      requested.find? (fun m => !hasPkg cache m) = some n) ∧
    ((Ubuntu.get cache requested manifestLines resolver).2 = Except.error n →
      ∀ a ∈ (Ubuntu.get cache requested manifestLines resolver).1,
        (∀ m, a ≠ Action.skipEssential m) ∧ (∀ m, a ≠ Action.skipManifest m)) := by
  rcases hm : (markRequested cache requested).2 with nn | c1
  · have hres : Ubuntu.get cache requested manifestLines resolver =
        (Action.mkdirDownload :: (markRequested cache requested).1, Except.error nn) := by
      unfold Ubuntu.get; simp only [hm]
    have h1 := (markRequested_error_iff requested cache nn).mp hm
    rw [hres]
    constructor
    · constructor
      · intro he
        rw [← Except.error.inj he]; exact h1
      · intro hf
        rw [Option.some.inj (h1.symm.trans hf)]
    · intro _ a ha
      simp only [List.mem_cons] at ha
      rcases ha with rfl | ha
      · exact ⟨fun m => by simp, fun m => by simp⟩
      · obtain ⟨m, rfl⟩ := markRequested_trace_installs requested cache a ha
        exact ⟨fun m' => by simp, fun m' => by simp⟩
  · have hres : (Ubuntu.get cache requested manifestLines resolver).2 =
        Except.ok (exclusionPass requested (manifestDepNames manifestLines cache)
          (resolver c1)).1 := by
      unfold Ubuntu.get; simp only [hm]
    constructor
    · rw [hres]
      constructor
      · intro he; exact absurd he (by simp)
      · intro hf
        have hx := (markRequested_error_iff requested cache n).mpr hf
        rw [hm] at hx
        exact absurd hx (by simp)
    · intro he
      rw [hres] at he
      exact absurd he (by simp)

theorem C2_witness :
    ((Ubuntu.get [{ name := "curl", priority := "optional", marking := Marking.untouched }]
        ["curl", "nosuch", "other"] [] (fun l => l)).2 = Except.error "nosuch") ∧
    ∀ a ∈ (Ubuntu.get [{ name := "curl", priority := "optional", marking := Marking.untouched }]
        ["curl", "nosuch", "other"] [] (fun l => l)).1,
      (∀ m, a ≠ Action.skipEssential m) ∧ (∀ m, a ≠ Action.skipManifest m) := by
  have h := C2_missing_name_error
    [{ name := "curl", priority := "optional", marking := Marking.untouched }]
    ["curl", "nosuch", "other"] [] (fun l => l) "nosuch"
  have he : (Ubuntu.get [{ name := "curl", priority := "optional", marking := Marking.untouched }]
      ["curl", "nosuch", "other"] [] (fun l => l)).2 = Except.error "nosuch" :=
    h.1.mpr (by decide)
  exact ⟨he, h.2 he⟩

/-- Exclusion never leaves a manifest-intersected, unrequested package
marked for install: one of the two keep branches always fires for it. -/
theorem exclusionPass_no_install (requested mdn : List String) :
    ∀ (l : List Pkg) (p : Pkg), p ∈ (exclusionPass requested mdn l).1 →
      p.name ∈ mdn → p.name ∉ requested → p.marking ≠ Marking.install := by
  intro l
  induction l with
  | nil => intro p hp; simp [exclusionPass] at hp
  | cons q rest ih =>
    intro p hp hmem hnot
    simp only [exclusionPass, List.mem_cons] at hp
    rcases hp with hp | hp
    · subst hp
      unfold excludeStep at *
      split_ifs at * with h1 h2
      · simp
      · simp
      · exact absurd ⟨hmem, hnot⟩ h2
    · exact ih p hp hmem hnot

/-- C8: the manifest intersection consists exactly of the stripped
manifest lines naming packages known to the index, and after a
successful `Ubuntu.get` no manifest-intersected package is marked
install unless it was explicitly requested. -/
theorem C8_manifest_never_installed (cache : List Pkg) (requested manifestLines : List String)
    (resolver : List Pkg → List Pkg) (tr : List Action) (out : List Pkg)
    (h : Ubuntu.get cache requested manifestLines resolver = (tr, Except.ok out)) :
    (∀ nm, nm ∈ manifestDepNames manifestLines cache ↔
      ∃ line ∈ manifestLines, pyStrip line = nm ∧ hasPkg cache nm = true) ∧
    ∀ p ∈ out, p.name ∈ manifestDepNames manifestLines cache → p.name ∉ requested →
      p.marking ≠ Marking.install := by
  constructor
  · intro nm
    simp only [manifestDepNames, List.mem_filter, List.mem_map]
    constructor
    · rintro ⟨⟨line, hline, rfl⟩, hhas⟩
      exact ⟨line, hline, rfl, hhas⟩
    · rintro ⟨line, hline, rfl, hhas⟩
      exact ⟨⟨line, hline, rfl⟩, hhas⟩
  · intro p hp
    unfold Ubuntu.get at h
    rcases hm : (markRequested cache requested).2 with nn | c1 <;> simp only [hm] at h
    · simp at h
    · simp only [Prod.mk.injEq, Except.ok.injEq] at h
      rw [← h.2] at hp
      exact exclusionPass_no_install requested (manifestDepNames manifestLines cache)
        (resolver c1) p hp

theorem C8_witness :
    ("libc6" ∈ manifestDepNames ["libc6", "nothere"]
        [{ name := "libc6", priority := "required", marking := Marking.untouched },
          { name := "curl", priority := "optional", marking := Marking.untouched }] ↔
      ∃ line ∈ ["libc6", "nothere"], pyStrip line = "libc6" ∧
        hasPkg [{ name := "libc6", priority := "required", marking := Marking.untouched },
          { name := "curl", priority := "optional", marking := Marking.untouched }] "libc6" = true) ∧
    ∀ p ∈ ([{ name := "libc6", priority := "required", marking := Marking.keep },
        { name := "curl", priority := "optional", marking := Marking.install }] : List Pkg),
      p.name ∈ manifestDepNames ["libc6", "nothere"]
        [{ name := "libc6", priority := "required", marking := Marking.untouched },
          { name := "curl", priority := "optional", marking := Marking.untouched }] →
      p.name ∉ ["curl"] → p.marking ≠ Marking.install := by
  have h := C8_manifest_never_installed
    [{ name := "libc6", priority := "required", marking := Marking.untouched },
      { name := "curl", priority := "optional", marking := Marking.untouched }]
    ["curl"] ["libc6", "nothere"]
    (fun l => markInstallOn l "libc6")
    [Action.mkdirDownload, Action.markInstall "curl", Action.skipManifest "libc6",
      Action.fetchArchives]
    [{ name := "libc6", priority := "required", marking := Marking.keep },
      { name := "curl", priority := "optional", marking := Marking.install }]
    rfl
  exact ⟨h.1 "libc6", h.2⟩

/-- The exclusion loop returns one package per input package. -/
theorem exclusionPass_length (requested mdn : List String) :
    ∀ l : List Pkg, (exclusionPass requested mdn l).1.length = l.length := by
  intro l
  induction l with
  | nil => rfl
  | cons q rest ih => simp [exclusionPass, ih]

/-- Pointwise description of the exclusion loop's output. -/
theorem exclusionPass_get (requested mdn : List String) :
    ∀ (l : List Pkg) (i : Nat) (hi : i < l.length)
      (ho : i < (exclusionPass requested mdn l).1.length),
      (exclusionPass requested mdn l).1.get ⟨i, ho⟩ =
        (excludeStep requested mdn (l.get ⟨i, hi⟩)).1 := by
  intro l
  induction l with
  | nil => intro i hi; exact absurd hi (by simp)
  | cons q rest ih =>
    intro i hi ho
    cases i with
    | zero => rfl
    | succ j =>
      exact ih j (Nat.lt_of_succ_lt_succ hi) (Nat.lt_of_succ_lt_succ ho)

/-- Any unrequested package whose priority passes the Python substring
test against `'essential'` ends up marked keep. -/
theorem exclusionPass_essential_keep (requested mdn : List String) :
    ∀ (l : List Pkg) (p : Pkg), p ∈ (exclusionPass requested mdn l).1 →
      pyInStr p.priority "essential" → p.name ∉ requested →
      p.marking = Marking.keep := by
  intro l
  induction l with
  | nil => intro p hp; simp [exclusionPass] at hp
  | cons q rest ih =>
    intro p hp hess hnot
    simp only [exclusionPass, List.mem_cons] at hp
    rcases hp with hp | hp
    · subst hp
      unfold excludeStep at *
      split_ifs at * with h1 h2
      · rfl
      · rfl
      · exact absurd ⟨hess, hnot⟩ h1
    · exact ih p hp hess hnot

/-- C1 counterexample: the claim says a non-essential, non-manifest,
unrequested package is never forced to keep, but the code's first
branch is `pkg.candidate.priority in 'essential'` — a Python substring
test — so a package whose priority string is `"enti"` (a substring of
`"essential"`, though not equal to it) is forced from install to keep
even though it is in no manifest and was not requested. -/
theorem C1_counterexample :
    (Ubuntu.get [{ name := "somepkg", priority := "enti", marking := Marking.untouched }]
        [] [] (fun l => markInstallOn l "somepkg")).2 =
      Except.ok [{ name := "somepkg", priority := "enti", marking := Marking.keep }] ∧
    ("enti" : String) ≠ "essential" ∧
    manifestDepNames []
      [{ name := "somepkg", priority := "enti", marking := Marking.untouched }] = [] :=
  ⟨rfl, by decide, rfl⟩

/-- C1 amended: after a successful `Ubuntu.get`, the exclusion decision
for every package known to the index follows the two-branch priority
table with the first branch testing that the priority string is a
SUBSTRING of `"essential"` (Python `in` on strings), not equality: such
an unrequested package is forced to keep; otherwise an unrequested
manifest-intersected package is forced to keep; otherwise the marking
is left exactly as the index's dependency resolution set it.
Consequently no essential-tier package (priority exactly `"essential"`,
which is a substring of itself) is marked install unless requested. -/
theorem C1_exclusion_policy_amended (cache : List Pkg)
    (requested manifestLines : List String) (resolver : List Pkg → List Pkg)
    (tr1 : List Action) (c1 : List Pkg)
    (h : markRequested cache requested = (tr1, Except.ok c1)) :
    let mdn := manifestDepNames manifestLines cache
    let pre := resolver c1
    let out := (exclusionPass requested mdn pre).1
    (Ubuntu.get cache requested manifestLines resolver).2 = Except.ok out ∧
    out.length = pre.length ∧
    (∀ (i : Nat) (hi : i < pre.length) (ho : i < out.length),
      (out.get ⟨i, ho⟩).name = (pre.get ⟨i, hi⟩).name ∧
      (out.get ⟨i, ho⟩).priority = (pre.get ⟨i, hi⟩).priority ∧
      (out.get ⟨i, ho⟩).marking =
        (if pyInStr (pre.get ⟨i, hi⟩).priority "essential" ∧
            (pre.get ⟨i, hi⟩).name ∉ requested then Marking.keep
         else if (pre.get ⟨i, hi⟩).name ∈ mdn ∧
            (pre.get ⟨i, hi⟩).name ∉ requested then Marking.keep
         else (pre.get ⟨i, hi⟩).marking)) ∧
    ∀ p ∈ out, p.priority = "essential" → p.name ∉ requested →
      p.marking ≠ Marking.install := by
  intro mdn pre out
  refine ⟨?_, exclusionPass_length requested mdn pre, ?_, ?_⟩
  · unfold Ubuntu.get
    simp only [h]
  · intro i hi ho
    rw [exclusionPass_get requested mdn pre i hi ho]
    unfold excludeStep
    split_ifs with h1 h2 <;> exact ⟨rfl, rfl, rfl⟩
  · intro p hp hpr hnot
    have hess : pyInStr p.priority "essential" := by rw [hpr]; decide
    rw [exclusionPass_essential_keep requested mdn pre p hp hess hnot]
    decide

theorem C1_witness :
    (Ubuntu.get
        [{ name := "curl", priority := "optional", marking := Marking.untouched },
          { name := "libc6", priority := "essential", marking := Marking.untouched }]
        ["curl"] ["libc6"] (fun l => markInstallOn l "libc6")).2 =
      Except.ok
        [{ name := "curl", priority := "optional", marking := Marking.install },
          { name := "libc6", priority := "essential", marking := Marking.keep }] ∧
    ∀ p ∈ ([{ name := "curl", priority := "optional", marking := Marking.install },
        { name := "libc6", priority := "essential", marking := Marking.keep }] : List Pkg),
      p.priority = "essential" → p.name ∉ ["curl"] → p.marking ≠ Marking.install := by
  have h := C1_exclusion_policy_amended
    [{ name := "curl", priority := "optional", marking := Marking.untouched },
      { name := "libc6", priority := "essential", marking := Marking.untouched }]
    ["curl"] ["libc6"] (fun l => markInstallOn l "libc6")
    [Action.markInstall "curl"]
    [{ name := "curl", priority := "optional", marking := Marking.install },
      { name := "libc6", priority := "essential", marking := Marking.untouched }]
    rfl
  exact ⟨h.1, h.2.2.2⟩

/-! Machinery for substring (contiguous occurrence) reasoning about the
formatted sources documents of `_format_sources_list`. -/

/-- Decomposing a contiguous occurrence across an append: the pattern
lies inside the left part, inside the right part, or spans the seam
with a nonempty piece on each side. -/
theorem isInfix_append_cases {α : Type} {pat a b : List α} (h : pat <:+: a ++ b) :
    pat <:+: a ∨ pat <:+: b ∨
      ∃ p q, p ≠ [] ∧ q ≠ [] ∧ pat = p ++ q ∧ p <:+ a ∧ q <+: b := by
  obtain ⟨s, t, hst⟩ := h
  rw [List.append_assoc] at hst
  rcases List.append_eq_append_iff.mp hst with ⟨a1, ha, hpt⟩ | ⟨c1, _, hb⟩
  · rcases List.append_eq_append_iff.mp hpt with ⟨x, hax, _⟩ | ⟨y, hpy, hby⟩
    · left
      exact ⟨s, x, by rw [List.append_assoc, ← hax, ← ha]⟩
    · rcases eq_or_ne a1 [] with rfl | ha1
      · right; left
        refine ⟨[], t, ?_⟩
        simp only [List.nil_append] at hpy ⊢
        rw [← hpy] at hby
        exact hby.symm
      · rcases eq_or_ne y [] with rfl | hy
        · left
          refine ⟨s, [], ?_⟩
          simp only [hpy, List.append_nil]
          exact ha.symm
        · right; right
          exact ⟨a1, y, ha1, hy, hpy, ⟨s, ha.symm⟩, ⟨t, hby.symm⟩⟩
  · right; left
    exact ⟨c1, t, by rw [List.append_assoc, ← hb]⟩

/-- A nonempty prefix determines the head of the longer list. -/
theorem head?_eq_of_pfx {α : Type} {q Y : List α} (h : q <+: Y) (hq : q ≠ []) :
    Y.head? = q.head? := by
  obtain ⟨t, rfl⟩ := h
  cases q with
  | nil => exact absurd rfl hq
  | cons c cs => rfl

/-- A document shape: concrete literal segments interleaved with
occurrences of one free segment (the geo hint). -/
inductive Piece where
  | lit (l : List Char)
  | geo

/-- Assemble a document from its pieces, instantiating the free
segment with `g`. -/
def flattenPieces (g : List Char) : List Piece → List Char
  | [] => []
  | Piece.lit l :: rest => l ++ flattenPieces g rest
  | Piece.geo :: rest => g ++ flattenPieces g rest

/-- Side conditions under which a pattern cannot occur in an assembled
document, whatever the free segment is: no literal contains the pattern
or ends with a nonempty proper prefix of it, and the literal following
each free segment starts with a character no nonempty proper suffix of
the pattern starts with. -/
def PiecesOk (pat : List Char) : List Piece → Prop
  | [] => True
  | Piece.lit l :: rest =>
      (¬ pat <:+: l) ∧
      (∀ p ∈ pat.inits, p ≠ [] → p ≠ pat → ¬ p <:+ l) ∧
      PiecesOk pat rest
  | Piece.geo :: rest =>
      (match rest with
        | [] => True
        | Piece.lit l :: _ =>
            l ≠ [] ∧ ∀ q ∈ pat.tails, q ≠ [] → q ≠ pat → q.head? ≠ l.head?
        | Piece.geo :: _ => False) ∧
      PiecesOk pat rest

instance piecesOkDec (pat : List Char) : (ps : List Piece) → Decidable (PiecesOk pat ps)
  | [] => isTrue trivial
  | Piece.lit _ :: rest =>
    haveI := piecesOkDec pat rest
    inferInstanceAs (Decidable (_ ∧ _ ∧ _))
  | [Piece.geo] =>
    haveI := piecesOkDec pat ([] : List Piece)
    inferInstanceAs (Decidable (_ ∧ _))
  | Piece.geo :: Piece.lit l :: rest =>
    haveI := piecesOkDec pat (Piece.lit l :: rest)
    inferInstanceAs (Decidable (_ ∧ _))
  | Piece.geo :: Piece.geo :: rest =>
    haveI := piecesOkDec pat (Piece.geo :: rest)
    inferInstanceAs (Decidable (_ ∧ _))

/-- Main containment bound: if the side conditions hold and the pattern
does not occur in the free segment, it does not occur in the assembled
document. -/
theorem not_isInfix_flatten (pat : List Char) (hpat : pat ≠ []) (g : List Char)
    (hg : ¬ pat <:+: g) :
    ∀ ps : List Piece, PiecesOk pat ps → ¬ pat <:+: flattenPieces g ps := by
  intro ps
  induction ps with
  | nil =>
    intro _ hinf
    obtain ⟨s, t, hst⟩ := hinf
    exact hpat (List.append_eq_nil.mp (List.append_eq_nil.mp hst).1).2
  | cons pc rest ih =>
    intro hok hinf
    cases pc with
    | lit l =>
      obtain ⟨hno, hsplit, hrest⟩ := hok
      rcases isInfix_append_cases hinf with hA | hB | ⟨p, q, hp, hq, hpq, hpsuf, hqpre⟩
      · exact hno hA
      · exact ih hrest hB
      · have hpne : p ≠ pat := by
          intro he
          rw [he] at hpq
          have hlen : pat.length = (pat ++ q).length := congrArg List.length hpq
          simp only [List.length_append] at hlen
          exact hq (List.eq_nil_of_length_eq_zero (by omega))
        exact hsplit p ((List.mem_inits p pat).mpr ⟨q, hpq.symm⟩) hp hpne hpsuf
    | geo =>
      obtain ⟨hcond, hrest⟩ := hok
      rcases isInfix_append_cases hinf with hA | hB | ⟨p, q, hp, hq, hpq, _, hqpre⟩
      · exact hg hA
      · exact ih hrest hB
      · have hqne : q ≠ pat := by
          intro he
          rw [he] at hpq
          have hlen : pat.length = (p ++ pat).length := congrArg List.length hpq
          simp only [List.length_append] at hlen
          exact hp (List.eq_nil_of_length_eq_zero (by omega))
        cases rest with
        | nil =>
          obtain ⟨t0, ht0⟩ := hqpre
          exact hq (List.append_eq_nil.mp ht0).1
        | cons pc2 rest2 =>
          cases pc2 with
          | lit l2 =>
            obtain ⟨hl2, hheads⟩ := hcond
            have hhd : q.head? = l2.head? := by
              have h1 := head?_eq_of_pfx hqpre hq
              rw [← h1]
              cases l2 with
              | nil => exact absurd rfl hl2
              | cons c cs => rfl
            exact hheads q ((List.mem_tails q pat).mpr ⟨p, hpq.symm⟩) hq hqne hhd
          | geo => exact hcond.elim

/-- Token structure of the `string.Template` document `_DEFAULT_SOURCES`:
literal text interleaved with the four dollar-brace placeholders for
the mirror host lead-in, the repository namespace, the security host
and the release name. -/
inductive Tok where
  | lit (s : String)
  | phPre
  | suffixPh
  | securityPh
  | releasePh

/-- Value a token contributes under a substitution mapping. -/
def tokText (pre suf sec rel : String) : Tok → String
  | Tok.lit s => s
  | Tok.phPre => pre
  | Tok.suffixPh => suf
  | Tok.securityPh => sec
  | Tok.releasePh => rel

/-- Model of `string.Template(sources).substitute(...)`: replace every
placeholder by its mapping value. -/
def substTemplate (pre suf sec rel : String) : List Tok → String
  | [] => ""
  | t :: ts => tokText pre suf sec rel t ++ substTemplate pre suf sec rel ts

/-- The token decomposition of `_DEFAULT_SOURCES`. -/
def defaultSourcesToks : List Tok :=
  [Tok.lit "deb http://", Tok.phPre, Tok.lit ".ubuntu.com/", Tok.suffixPh,
    Tok.lit "/ ", Tok.releasePh, Tok.lit " main restricted\n",
  Tok.lit "deb http://", Tok.phPre, Tok.lit ".ubuntu.com/", Tok.suffixPh,
    Tok.lit "/ ", Tok.releasePh, Tok.lit "-updates main restricted\n",
  Tok.lit "deb http://", Tok.phPre, Tok.lit ".ubuntu.com/", Tok.suffixPh,
    Tok.lit "/ ", Tok.releasePh, Tok.lit " universe\n",
  Tok.lit "deb http://", Tok.phPre, Tok.lit ".ubuntu.com/", Tok.suffixPh,
    Tok.lit "/ ", Tok.releasePh, Tok.lit "-updates universe\n",
  Tok.lit "deb http://", Tok.phPre, Tok.lit ".ubuntu.com/", Tok.suffixPh,
    Tok.lit "/ ", Tok.releasePh, Tok.lit " multiverse\n",
  Tok.lit "deb http://", Tok.phPre, Tok.lit ".ubuntu.com/", Tok.suffixPh,
    Tok.lit "/ ", Tok.releasePh, Tok.lit "-updates multiverse\n",
  Tok.lit "deb http://", Tok.securityPh, Tok.lit ".ubuntu.com/", Tok.suffixPh,
    Tok.lit " ", Tok.releasePh, Tok.lit "-security main restricted\n",
  Tok.lit "deb http://", Tok.securityPh, Tok.lit ".ubuntu.com/", Tok.suffixPh,
    Tok.lit " ", Tok.releasePh, Tok.lit "-security universe\n",
  Tok.lit "deb http://", Tok.securityPh, Tok.lit ".ubuntu.com/", Tok.suffixPh,
    Tok.lit " ", Tok.releasePh, Tok.lit "-security multiverse\n"]

/-- Substituting the placeholder spellings back reproduces the raw
`_DEFAULT_SOURCES` text, tying the token decomposition to the literal. -/
theorem defaultSourcesToks_renders :
    substTemplate "$\x7bprefix\x7d" "$\x7bsuffix\x7d" "$\x7bsecurity\x7d" "$\x7brelease\x7d"
      defaultSourcesToks = defaultSourcesText := by decide

/-- Model of `_format_sources_list(sources, arch, release)`: the two primary
architectures get `<geo>.archive` / `ubuntu` / `security`; every other
architecture gets the ports mirror `ports` / `ubuntu-ports` / `ports`.
The geo hint is the result of the geo lookup, passed explicitly here.
The Python default for `release` is `'vivid'`. -/
def formatSourcesList (sources : List Tok) (arch geo release : String) : String :=
  if arch = "amd64" ∨ arch = "i386" then
    substTemplate (geo ++ ".archive") "ubuntu" "security" release sources
  else
    substTemplate "ports" "ubuntu-ports" "ports" release sources

/-- Pieces of the primary-branch document: the geo hint is the only
free segment; everything else is literal. -/
def primaryPieces : Tok → List Piece
  | Tok.lit s => [Piece.lit s.data]
  | Tok.phPre => [Piece.geo, Piece.lit ".archive".data]
  | Tok.suffixPh => [Piece.lit "ubuntu".data]
  | Tok.securityPh => [Piece.lit "security".data]
  | Tok.releasePh => [Piece.lit "vivid".data]

/-- Pieces of a token list. -/
def piecesOfToks (f : Tok → List Piece) : List Tok → List Piece
  | [] => []
  | t :: ts => f t ++ piecesOfToks f ts

theorem flattenPieces_append (g : List Char) (xs ys : List Piece) :
    flattenPieces g (xs ++ ys) = flattenPieces g xs ++ flattenPieces g ys := by
  induction xs with
  | nil => rfl
  | cons pc rest ih =>
    cases pc <;> simp [flattenPieces, ih]

/-- The primary-branch document is the flattening of its pieces. -/
theorem flatten_primary (geo : String) : ∀ toks : List Tok,
    flattenPieces geo.data (piecesOfToks primaryPieces toks) =
      (substTemplate (geo ++ ".archive") "ubuntu" "security" "vivid" toks).data := by
  intro toks
  induction toks with
  | nil => rfl
  | cons t ts ih =>
    cases t <;>
      simp [piecesOfToks, primaryPieces, flattenPieces_append, flattenPieces,
        substTemplate, tokText, String.data_append, ih, List.append_assoc]

/-- Whatever geo hint the lookup produced — as long as it does not
itself contain `ports` — the primary-architecture document contains no
occurrence of `ports`. -/
theorem primary_no_ports (geo : String) (hg : ¬ ("ports".data <:+: geo.data)) :
    ¬ ("ports".data <:+:
      (substTemplate (geo ++ ".archive") "ubuntu" "security" "vivid"
        defaultSourcesToks).data) := by
  rw [← flatten_primary geo defaultSourcesToks]
  exact not_isInfix_flatten "ports".data (by decide) geo.data hg
    (piecesOfToks primaryPieces defaultSourcesToks) (by decide)

/-- C4: for the primary architectures (`amd64`, `i386`) the formatted
default source document uses `<geo>.archive` / `ubuntu` / `security`
and contains no occurrence of the ports identifier `ports` (hence none
of `ubuntu-ports` or `ports.ubuntu.com` either); for every other
architecture it uses `ports` / `ubuntu-ports` / `ports` and contains no
occurrence of the primary identifiers `archive`, `security.ubuntu.com`
or `/ubuntu/`. -/
theorem C4_sources_by_arch (arch geo : String) :
    ((arch = "amd64" ∨ arch = "i386") →
      formatSourcesList defaultSourcesToks arch geo "vivid" =
        substTemplate (geo ++ ".archive") "ubuntu" "security" "vivid"
          defaultSourcesToks ∧
      (¬ ("ports".data <:+: geo.data) →
        ¬ ("ports".data <:+:
          (formatSourcesList defaultSourcesToks arch geo "vivid").data))) ∧
    (¬ (arch = "amd64" ∨ arch = "i386") →
      formatSourcesList defaultSourcesToks arch geo "vivid" =
        substTemplate "ports" "ubuntu-ports" "ports" "vivid" defaultSourcesToks ∧
      ¬ ("archive".data <:+:
        (formatSourcesList defaultSourcesToks arch geo "vivid").data) ∧
      ¬ ("security.ubuntu.com".data <:+:
        (formatSourcesList defaultSourcesToks arch geo "vivid").data) ∧
      ¬ ("/ubuntu/".data <:+:
        (formatSourcesList defaultSourcesToks arch geo "vivid").data)) := by
  constructor
  · intro hp
    have he : formatSourcesList defaultSourcesToks arch geo "vivid" =
        substTemplate (geo ++ ".archive") "ubuntu" "security" "vivid"
          defaultSourcesToks := by
      unfold formatSourcesList
      rw [if_pos hp]
    exact ⟨he, fun hg => by rw [he]; exact primary_no_ports geo hg⟩
  · intro hn
    have he : formatSourcesList defaultSourcesToks arch geo "vivid" =
        substTemplate "ports" "ubuntu-ports" "ports" "vivid" defaultSourcesToks := by
      unfold formatSourcesList
      rw [if_neg hn]
    refine ⟨he, ?_, ?_, ?_⟩ <;> rw [he] <;> decide

theorem C4_witness :
    formatSourcesList defaultSourcesToks "amd64" "" "vivid" =
      substTemplate (("" : String) ++ ".archive") "ubuntu" "security" "vivid"
        defaultSourcesToks ∧
    ¬ ("ports".data <:+:
      (formatSourcesList defaultSourcesToks "amd64" "" "vivid").data) ∧
    ¬ ("archive".data <:+:
      (formatSourcesList defaultSourcesToks "armhf" "" "vivid").data) := by
  have h1 := (C4_sources_by_arch "amd64" "").1 (Or.inl rfl)
  have h2 := (C4_sources_by_arch "armhf" "").2 (by decide)
  exact ⟨h1.1, h1.2 (by decide), h2.2.1⟩

/-! Filesystem model for `_fix_symlinks`.

A path is its list of components from the real filesystem root.  The
tree is a finite association list from paths to entries; `lookupFS` is
exact-path lookup (directories are looked up directly; symlinks are
followed only as the final component, which suffices for the trees the
claims are about).  `existsFS` models `os.path.exists`: it follows
symlink chains — absolute targets resolve against the REAL root, not
the extraction root — with fuel standing for the kernel's symlink-loop
limit (exhausted fuel = `ELOOP` = does not exist).  The `os.walk` visit
order is an explicit list parameter, since Python's directory iteration
order is unspecified. -/

abbrev FPath := List String

/-- Value of a symlink: `os.readlink` output, split at `/`; `abs`
corresponds to `os.path.isabs` being true (leading slash dropped). -/
inductive LinkVal where
  | abs (p : FPath)
  | rel (p : List String)
  deriving DecidableEq, Repr

inductive Entry where
  | file
  | dir
  | symlink (t : LinkVal)
  deriving DecidableEq, Repr

abbrev FS := List (FPath × Entry)

def lookupFS : FS → FPath → Option Entry
  | [], _ => none
  | (q, e) :: rest, p => if q = p then some e else lookupFS rest p

/-- Model of `os.remove` followed by `os.symlink` at the same path: replace the
entry. -/
def updateFS (fs : FS) (p : FPath) (e : Entry) : FS :=
  fs.map fun qe => (qe.1, if qe.1 = p then e else qe.2)

/-- Normalize `..` and `.` components against an accumulated directory. -/
def normSegs : List String → List String → List String
  | acc, [] => acc
  | acc, s :: rest =>
    if s = ".." then normSegs acc.dropLast rest
    else if s = "." then normSegs acc rest
    else normSegs (acc ++ [s]) rest

/-- Resolve a symlink value against the link's own directory. -/
def resolveLink (linkDir : FPath) : LinkVal → FPath
  | LinkVal.abs p => p
  | LinkVal.rel r => normSegs linkDir r

/-- Symlink-chain budget of `os.path.exists` (Linux `ELOOP` limit). -/
abbrev FUEL : Nat := 40

/-- Model of `os.path.exists`: true for files and directories, follows symlink
chains, false for missing paths and exhausted chains. -/
def existsFS (fs : FS) : Nat → FPath → Bool
  | 0, _ => false
  | n + 1, p =>
    match lookupFS fs p with
    | none => false
    | some Entry.file => true
    | some Entry.dir => true
    | some (Entry.symlink t) => existsFS fs n (resolveLink p.dropLast t)

/-- Strip the common leading components of two paths. -/
def dropCommon : FPath → FPath → FPath × FPath
  | a :: as, b :: bs => if a = b then dropCommon as bs else (a :: as, b :: bs)
  | as, bs => (as, bs)

/-- Model of `os.path.relpath(target, start)`. -/
def relpath (target start : FPath) : List String :=
  let d := dropCommon target start
  let r := d.2.map (fun _ => "..") ++ d.1
  if r = [] then ["."] else r

/-- One entry of the `_fix_symlinks` walk: if the entry is a symlink
with an absolute target whose rebasing under `debdir` exists, delete it
and recreate it pointing at the relative path from the link's directory;
otherwise do nothing.  The boolean records whether a mutation happened. -/
def fixStep (debdir : FPath) (fs : FS) (p : FPath) : FS × Bool :=
  match lookupFS fs p with
  | some (Entry.symlink (LinkVal.abs t)) =>
    if existsFS fs FUEL (debdir ++ t) then
      (updateFS fs p (Entry.symlink (LinkVal.rel (relpath (debdir ++ t) p.dropLast))),
        true)
    else (fs, false)
  | _ => (fs, false)

/-- Model of `_fix_symlinks(debdir)` over a given walk order, returning the
final tree and the list of mutated paths in visit order. -/
def fixSymlinks (debdir : FPath) : FS → List FPath → FS × List FPath
  | fs, [] => (fs, [])
  | fs, p :: rest =>
    let s := fixStep debdir fs p
    let r := fixSymlinks debdir s.1 rest
    (r.1, (if s.2 then [p] else []) ++ r.2)

/-- A chain of absolute symlinks under the extraction root `/d`:
`/d/a -> /b` (dangling through the chain), `/d/b -> /c` (rebases to the
real file `/d/c`), `/d/c` a file.  Nothing exists at real `/b` or
`/c`. -/
def chainFS : FS :=
  [(["d"], Entry.dir),
    (["d", "a"], Entry.symlink (LinkVal.abs ["b"])),
    (["d", "b"], Entry.symlink (LinkVal.abs ["c"])),
    (["d", "c"], Entry.file)]

/-- C5 counterexample: on the chained tree, the first run (visiting
`a`, `b`, `c` in order) rewrites only `b`; this brings `a`'s rebased
target `/d/b` into existence, so the second run deletes and recreates
`a` — the repair is not idempotent. -/
theorem C5_counterexample :
    (fixSymlinks ["d"]
        (fixSymlinks ["d"] chainFS [["d", "a"], ["d", "b"], ["d", "c"]]).1
        [["d", "a"], ["d", "b"], ["d", "c"]]).2 = [["d", "a"]] ∧
    (fixSymlinks ["d"]
        (fixSymlinks ["d"] chainFS [["d", "a"], ["d", "b"], ["d", "c"]]).1
        [["d", "a"], ["d", "b"], ["d", "c"]]).2 ≠ [] := by
  constructor
  · decide
  · decide

/-- C6 counterexample: with walk order `b` then `a`, the entry `a` is
an absolute symlink whose rebased target `/d/b` does NOT exist in the
tree as given (its chain dangles), yet the run mutates `a`, because the
earlier rewrite of `b` brought the target into existence.  So "mutated
iff the rebased target exists on disk" is false when existence is read
against the pre-run tree. -/
theorem C6_counterexample :
    lookupFS chainFS ["d", "a"] = some (Entry.symlink (LinkVal.abs ["b"])) ∧
    existsFS chainFS FUEL (["d"] ++ ["b"]) = false ∧
    ["d", "a"] ∈
      (fixSymlinks ["d"] chainFS [["d", "b"], ["d", "a"], ["d", "c"]]).2 := by
  refine ⟨rfl, ?_, ?_⟩
  · decide
  · decide

theorem lookupFS_updateFS (p : FPath) (e : Entry) : ∀ (fs : FS) (q : FPath),
    lookupFS (updateFS fs p e) q =
      if q = p then (lookupFS fs p).map (fun _ => e) else lookupFS fs q := by
  intro fs
  induction fs with
  | nil =>
    intro q
    simp only [updateFS, List.map_nil, lookupFS]
    split <;> rfl
  | cons qe rest ih =>
    intro q
    obtain ⟨a, e0⟩ := qe
    have hcons : updateFS ((a, e0) :: rest) p e =
        (a, if a = p then e else e0) :: updateFS rest p e := rfl
    rw [hcons]
    by_cases haq : a = q
    · subst haq
      by_cases hap : a = p
      · subst hap
        simp [lookupFS]
      · simp [lookupFS, hap]
    · by_cases hqp : q = p
      · subst hqp
        simp [lookupFS, haq, ih]
      · simp [lookupFS, haq, hqp, ih]

/-- A step at `q` does not touch any other path. -/
theorem fixStep_frame (d : FPath) (fs : FS) (q p : FPath) (h : p ≠ q) :
    lookupFS (fixStep d fs q).1 p = lookupFS fs p := by
  unfold fixStep
  cases hl : lookupFS fs q with
  | none => rfl
  | some e =>
    cases e with
    | file => rfl
    | dir => rfl
    | symlink t =>
      cases t with
      | rel r => rfl
      | abs tt =>
        dsimp only
        split
        · rw [lookupFS_updateFS, if_neg h]
        · rfl

/-- A run decomposes over concatenated walk orders. -/
theorem fixSymlinks_append (d : FPath) : ∀ (o1 o2 : List FPath) (fs : FS),
    fixSymlinks d fs (o1 ++ o2) =
      ((fixSymlinks d (fixSymlinks d fs o1).1 o2).1,
        (fixSymlinks d fs o1).2 ++ (fixSymlinks d (fixSymlinks d fs o1).1 o2).2) := by
  intro o1
  induction o1 with
  | nil => intro o2 fs; simp [fixSymlinks]
  | cons p rest ih =>
    intro o2 fs
    simp [fixSymlinks, ih, List.append_assoc]

/-- A run does not touch paths it does not visit. -/
theorem fixSymlinks_frame (d : FPath) : ∀ (o : List FPath) (fs : FS) (p : FPath),
    p ∉ o → lookupFS (fixSymlinks d fs o).1 p = lookupFS fs p := by
  intro o
  induction o with
  | nil => intro fs p _; rfl
  | cons q rest ih =>
    intro fs p hp
    have h1 : p ≠ q := fun he => hp (he ▸ List.mem_cons_self q rest)
    have h2 : p ∉ rest := fun he => hp (List.mem_cons_of_mem q he)
    calc lookupFS (fixSymlinks d (fixStep d fs q).1 rest).1 p
        = lookupFS (fixStep d fs q).1 p := ih (fixStep d fs q).1 p h2
      _ = lookupFS fs p := fixStep_frame d fs q p h1

/-- Every mutated path was visited. -/
theorem fixSymlinks_trace_sub (d : FPath) : ∀ (o : List FPath) (fs : FS) (p : FPath),
    p ∈ (fixSymlinks d fs o).2 → p ∈ o := by
  intro o
  induction o with
  | nil => intro fs p hp; exact absurd hp (by simp [fixSymlinks])
  | cons q rest ih =>
    intro fs p hp
    simp only [fixSymlinks, List.mem_append] at hp
    rcases hp with hp | hp
    · rcases hs : (fixStep d fs q).2 with _ | _ <;> rw [hs] at hp
      · simp at hp
      · simp at hp
        exact hp ▸ List.mem_cons_self q rest
    · exact List.mem_cons_of_mem q (ih (fixStep d fs q).1 p hp)

/-- A surviving absolute symlink was an absolute symlink with the same
target all along: steps can only rewrite absolute links to relative
ones. -/
theorem fixStep_abs_origin (d : FPath) (fs : FS) (q p : FPath) (t : FPath)
    (h : lookupFS (fixStep d fs q).1 p = some (Entry.symlink (LinkVal.abs t))) :
    lookupFS fs p = some (Entry.symlink (LinkVal.abs t)) := by
  by_cases hpq : p = q
  · subst hpq
    unfold fixStep at h
    split at h
    · rename_i tt heq
      split at h
      · dsimp only at h
        rw [lookupFS_updateFS, if_pos rfl, heq] at h
        simp at h
      · exact h
    · exact h
  · rw [fixStep_frame d fs q p hpq] at h
    exact h

theorem fixSymlinks_abs_origin (d : FPath) : ∀ (o : List FPath) (fs : FS) (p t : FPath),
    lookupFS (fixSymlinks d fs o).1 p = some (Entry.symlink (LinkVal.abs t)) →
    lookupFS fs p = some (Entry.symlink (LinkVal.abs t)) := by
  intro o
  induction o with
  | nil => intro fs p t h; exact h
  | cons q rest ih =>
    intro fs p t h
    exact fixStep_abs_origin d fs q p t (ih (fixStep d fs q).1 p t h)

/-- A step never touches a path that holds no symlink. -/
theorem fixStep_nonlink_preserved (d : FPath) (fs : FS) (q p : FPath)
    (h : ∀ u, lookupFS fs p ≠ some (Entry.symlink u)) :
    lookupFS (fixStep d fs q).1 p = lookupFS fs p := by
  by_cases hpq : p = q
  · subst hpq
    unfold fixStep
    cases hl : lookupFS fs p with
    | none => exact hl
    | some e =>
      cases e with
      | file => exact hl
      | dir => exact hl
      | symlink tv => exact absurd hl (h tv)
  · exact fixStep_frame d fs q p hpq

theorem fixSymlinks_nonlink_preserved (d : FPath) : ∀ (o : List FPath) (fs : FS) (p : FPath),
    (∀ u, lookupFS fs p ≠ some (Entry.symlink u)) →
    lookupFS (fixSymlinks d fs o).1 p = lookupFS fs p := by
  intro o
  induction o with
  | nil => intro fs p _; rfl
  | cons q rest ih =>
    intro fs p h
    have hstep := fixStep_nonlink_preserved d fs q p h
    calc lookupFS (fixSymlinks d (fixStep d fs q).1 rest).1 p
        = lookupFS (fixStep d fs q).1 p :=
          ih (fixStep d fs q).1 p (fun u => hstep ▸ h u)
      _ = lookupFS fs p := hstep

/-- Existence of a non-symlink path is invariant under a repair run. -/
theorem existsFS_nonlink_invariant (d : FPath) (o : List FPath) (fs : FS) (q : FPath)
    (h : ∀ u, lookupFS fs q ≠ some (Entry.symlink u)) (n : Nat) :
    existsFS (fixSymlinks d fs o).1 n q = existsFS fs n q := by
  cases n with
  | zero => rfl
  | succ m =>
    have hl := fixSymlinks_nonlink_preserved d o fs q h
    cases hll : lookupFS fs q with
    | none => simp [existsFS, hl, hll]
    | some e =>
      cases e with
      | file => simp [existsFS, hl, hll]
      | dir => simp [existsFS, hl, hll]
      | symlink u => exact absurd hll (h u)

/-- No absolute symlink's rebased target is itself a symlink (no
chained absolute links through the extraction root). -/
def TargetsNotLinks (d : FPath) (fs : FS) : Prop :=
  ∀ p t, lookupFS fs p = some (Entry.symlink (LinkVal.abs t)) →
    ∀ u, lookupFS fs (d ++ t) ≠ some (Entry.symlink u)

theorem targetsNotLinks_step (d : FPath) (fs : FS) (q : FPath)
    (H : TargetsNotLinks d fs) : TargetsNotLinks d (fixStep d fs q).1 := by
  intro p t hpt u
  have hfs := fixStep_abs_origin d fs q p t hpt
  have horig := H p t hfs
  rw [fixStep_nonlink_preserved d fs q (d ++ t) horig]
  exact horig u

/-- After a run that visited an absolute symlink which survived as
absolute, its rebased target (still) does not exist — provided no
rebased target is a symlink, so existence cannot be changed by the
run's rewrites. -/
theorem fixSymlinks_abs_unresolved (d : FPath) : ∀ (o : List FPath) (fs : FS),
    TargetsNotLinks d fs →
    ∀ p t, lookupFS (fixSymlinks d fs o).1 p = some (Entry.symlink (LinkVal.abs t)) →
      p ∈ o →
      existsFS (fixSymlinks d fs o).1 FUEL (d ++ t) = false := by
  intro o
  induction o with
  | nil => intro fs _ p t _ hmem; exact absurd hmem (by simp)
  | cons q rest ih =>
    intro fs H p t h hmem
    have H' := targetsNotLinks_step d fs q H
    rcases List.mem_cons.mp hmem with rfl | hmem'
    · by_cases hr : p ∈ rest
      · exact ih (fixStep d fs p).1 H' p t h hr
      · have hstep : lookupFS (fixStep d fs p).1 p =
            some (Entry.symlink (LinkVal.abs t)) := by
          rw [← fixSymlinks_frame d rest (fixStep d fs p).1 p hr]
          exact h
        have hfs := fixStep_abs_origin d fs p p t hstep
        have hex : existsFS fs FUEL (d ++ t) = false := by
          by_contra hcon
          have htrue : existsFS fs FUEL (d ++ t) = true := by
            simpa using hcon
          have hrw : lookupFS (fixStep d fs p).1 p =
              some (Entry.symlink (LinkVal.rel (relpath (d ++ t) p.dropLast))) := by
            unfold fixStep
            rw [hfs]
            dsimp only
            rw [if_pos htrue, lookupFS_updateFS, if_pos rfl, hfs]
            rfl
          rw [hrw] at hstep
          simp at hstep
        have hnl := H p t hfs
        exact (existsFS_nonlink_invariant d (p :: rest) fs (d ++ t) hnl FUEL).trans hex
    · exact ih (fixStep d fs q).1 H' p t h hmem'

/-- A run over any order is a no-op when every absolute symlink's
rebased target is missing. -/
theorem fixSymlinks_noop (d : FPath) : ∀ (o : List FPath) (fs : FS),
    (∀ q t, lookupFS fs q = some (Entry.symlink (LinkVal.abs t)) →
      existsFS fs FUEL (d ++ t) = false) →
    fixSymlinks d fs o = (fs, []) := by
  intro o
  induction o with
  | nil => intro fs _; rfl
  | cons q rest ih =>
    intro fs K
    have hstep : fixStep d fs q = (fs, false) := by
      unfold fixStep
      cases hl : lookupFS fs q with
      | none => rfl
      | some e =>
        cases e with
        | file => rfl
        | dir => rfl
        | symlink tv =>
          cases tv with
          | rel r => rfl
          | abs tt =>
            dsimp only
            rw [if_neg (by simp [K q tt hl])]
    simp [fixSymlinks, hstep, ih fs K]

/-- C5 amended: `_fix_symlinks` is idempotent PROVIDED no absolute
symlink's rebased target is itself a symlink (no chains of absolute
links) and the first walk visits every absolute symlink: then a second
run over any walk order deletes or recreates nothing and leaves the
tree unchanged.  Without that proviso the second run can mutate
(`C5_counterexample`): a first-run rewrite can bring a previously
dangling rebased target into existence. -/
theorem C5_idempotent_amended (d : FPath) (fs : FS) (o1 o2 : List FPath)
    (H : TargetsNotLinks d fs)
    (hcov : ∀ p t, lookupFS fs p = some (Entry.symlink (LinkVal.abs t)) → p ∈ o1) :
    (fixSymlinks d (fixSymlinks d fs o1).1 o2).2 = [] ∧
    (fixSymlinks d (fixSymlinks d fs o1).1 o2).1 = (fixSymlinks d fs o1).1 := by
  have K : ∀ q t, lookupFS (fixSymlinks d fs o1).1 q =
      some (Entry.symlink (LinkVal.abs t)) →
      existsFS (fixSymlinks d fs o1).1 FUEL (d ++ t) = false := by
    intro q t h
    have hfs := fixSymlinks_abs_origin d o1 fs q t h
    exact fixSymlinks_abs_unresolved d o1 fs H q t h (hcov q t hfs)
  have hno := fixSymlinks_noop d o2 (fixSymlinks d fs o1).1 K
  rw [hno]
  exact ⟨rfl, rfl⟩

/-- A repaired tree with no chained absolute symlinks: `/d/a -> /c`
rebases to the existing file `/d/c`. -/
def simpleFS : FS :=
  [(["d"], Entry.dir),
    (["d", "a"], Entry.symlink (LinkVal.abs ["c"])),
    (["d", "c"], Entry.file)]

theorem C5_witness :
    (fixSymlinks ["d"] (fixSymlinks ["d"] simpleFS [["d", "a"]]).1
      [["d", "a"], ["d", "c"]]).2 = [] ∧
    (fixSymlinks ["d"] (fixSymlinks ["d"] simpleFS [["d", "a"]]).1
      [["d", "a"], ["d", "c"]]).1 = (fixSymlinks ["d"] simpleFS [["d", "a"]]).1 := by
  refine C5_idempotent_amended ["d"] simpleFS [["d", "a"]] [["d", "a"], ["d", "c"]]
    ?_ ?_
  · intro p t hpt u
    simp only [simpleFS, lookupFS] at hpt
    split_ifs at hpt with h1 h2 h3
    · simp at hpt
    · simp only [Option.some.injEq, Entry.symlink.injEq, LinkVal.abs.injEq] at hpt
      subst hpt
      intro hcon
      have hev : lookupFS simpleFS (["d"] ++ ["c"]) = some Entry.file := rfl
      rw [hev] at hcon
      simp at hcon
    · simp at hpt
  · intro p t hpt
    simp only [simpleFS, lookupFS] at hpt
    split_ifs at hpt with h1 h2 h3
    · simp at hpt
    · simp [← h2]
    · simp at hpt

/-- Around a step that did nothing, a run mutates nothing at that path
and leaves its entry as it was. -/
theorem fixSymlinks_around_noop (d : FPath) (fs : FS) (o1 o2 : List FPath) (p : FPath)
    (h1 : p ∉ o1) (h2 : p ∉ o2)
    (hstep : fixStep d (fixSymlinks d fs o1).1 p = ((fixSymlinks d fs o1).1, false)) :
    p ∉ (fixSymlinks d fs (o1 ++ p :: o2)).2 ∧
    lookupFS (fixSymlinks d fs (o1 ++ p :: o2)).1 p = lookupFS fs p := by
  have hsplit := fixSymlinks_append d o1 (p :: o2) fs
  constructor
  · intro hmem
    rw [hsplit] at hmem
    rcases List.mem_append.mp hmem with hm | hm
    · exact h1 (fixSymlinks_trace_sub d o1 fs p hm)
    · have hm' : p ∈ (fixSymlinks d (fixSymlinks d fs o1).1 o2).2 := by
        have hun : (fixSymlinks d (fixSymlinks d fs o1).1 (p :: o2)).2 =
            (if (fixStep d (fixSymlinks d fs o1).1 p).2 then [p] else []) ++
              (fixSymlinks d (fixStep d (fixSymlinks d fs o1).1 p).1 o2).2 := rfl
        rw [hun, hstep] at hm
        simpa using hm
      exact h2 (fixSymlinks_trace_sub d o2 (fixSymlinks d fs o1).1 p hm')
  · have hX : (fixSymlinks d fs (o1 ++ p :: o2)).1 =
        (fixSymlinks d (fixSymlinks d fs o1).1 o2).1 := by
      rw [hsplit]
      show (fixSymlinks d (fixStep d (fixSymlinks d fs o1).1 p).1 o2).1 = _
      rw [hstep]
    rw [hX, fixSymlinks_frame d o2 (fixSymlinks d fs o1).1 p h2,
      fixSymlinks_frame d o1 fs p h1]

/-- Around a step that rewrote the entry to `e`, a run reports the path
mutated and leaves `e` there. -/
theorem fixSymlinks_around_mutate (d : FPath) (fs : FS) (o1 o2 : List FPath)
    (p : FPath) (e : Entry) (h1 : p ∉ o1) (h2 : p ∉ o2)
    (hstep : fixStep d (fixSymlinks d fs o1).1 p =
      (updateFS (fixSymlinks d fs o1).1 p e, true))
    (hsome : lookupFS fs p ≠ none) :
    p ∈ (fixSymlinks d fs (o1 ++ p :: o2)).2 ∧
    lookupFS (fixSymlinks d fs (o1 ++ p :: o2)).1 p = some e := by
  have hsplit := fixSymlinks_append d o1 (p :: o2) fs
  constructor
  · rw [hsplit]
    refine List.mem_append_right _ ?_
    show p ∈ (if (fixStep d (fixSymlinks d fs o1).1 p).2 then [p] else []) ++
      (fixSymlinks d (fixStep d (fixSymlinks d fs o1).1 p).1 o2).2
    rw [hstep]
    simp
  · have hX : (fixSymlinks d fs (o1 ++ p :: o2)).1 =
        (fixSymlinks d (updateFS (fixSymlinks d fs o1).1 p e) o2).1 := by
      rw [hsplit]
      show (fixSymlinks d (fixStep d (fixSymlinks d fs o1).1 p).1 o2).1 = _
      rw [hstep]
    rw [hX, fixSymlinks_frame d o2 _ p h2, lookupFS_updateFS, if_pos rfl,
      fixSymlinks_frame d o1 fs p h1]
    cases hl : lookupFS fs p with
    | none => exact absurd hl hsome
    | some e0 => rfl

/-- C6 amended: for an entry visited exactly once, a repair run mutates
it if and only if, AT THE MOMENT THE WALK REACHES IT, it is a symbolic
link with an absolute target whose rebasing under the target root
exists — existence evaluated against the partially repaired tree, which
earlier rewrites in the same run may have changed (`C6_counterexample`
shows the pre-run reading is false).  When it mutates, the link is
replaced by one to the relative path from its own directory to the
rebased target; relative symlinks, non-links and absolute symlinks with
missing rebased targets keep exactly their original entries. -/
theorem C6_repair_frame (d : FPath) (fs : FS) (o1 o2 : List FPath) (p : FPath)
    (h1 : p ∉ o1) (h2 : p ∉ o2) :
    lookupFS (fixSymlinks d fs o1).1 p = lookupFS fs p ∧
    (∀ t, lookupFS fs p = some (Entry.symlink (LinkVal.abs t)) →
      (if existsFS (fixSymlinks d fs o1).1 FUEL (d ++ t) then
        p ∈ (fixSymlinks d fs (o1 ++ p :: o2)).2 ∧
          lookupFS (fixSymlinks d fs (o1 ++ p :: o2)).1 p =
            some (Entry.symlink (LinkVal.rel (relpath (d ++ t) p.dropLast)))
      else
        p ∉ (fixSymlinks d fs (o1 ++ p :: o2)).2 ∧
          lookupFS (fixSymlinks d fs (o1 ++ p :: o2)).1 p = lookupFS fs p)) ∧
    ((∀ t, lookupFS fs p ≠ some (Entry.symlink (LinkVal.abs t))) →
      p ∉ (fixSymlinks d fs (o1 ++ p :: o2)).2 ∧
        lookupFS (fixSymlinks d fs (o1 ++ p :: o2)).1 p = lookupFS fs p) := by
  have hframe1 : lookupFS (fixSymlinks d fs o1).1 p = lookupFS fs p :=
    fixSymlinks_frame d o1 fs p h1
  refine ⟨hframe1, ?_, ?_⟩
  · intro t ht
    have hA : lookupFS (fixSymlinks d fs o1).1 p =
        some (Entry.symlink (LinkVal.abs t)) := by rw [hframe1]; exact ht
    by_cases hex : existsFS (fixSymlinks d fs o1).1 FUEL (d ++ t) = true
    · rw [if_pos hex]
      have hstep : fixStep d (fixSymlinks d fs o1).1 p =
          (updateFS (fixSymlinks d fs o1).1 p
            (Entry.symlink (LinkVal.rel (relpath (d ++ t) p.dropLast))), true) := by
        unfold fixStep
        rw [hA]
        dsimp only
        rw [if_pos hex]
      exact fixSymlinks_around_mutate d fs o1 o2 p _ h1 h2 hstep (by rw [ht]; simp)
    · rw [if_neg hex]
      have hstep : fixStep d (fixSymlinks d fs o1).1 p =
          ((fixSymlinks d fs o1).1, false) := by
        unfold fixStep
        rw [hA]
        dsimp only
        rw [if_neg hex]
      exact fixSymlinks_around_noop d fs o1 o2 p h1 h2 hstep
  · intro hnab
    have hstep : fixStep d (fixSymlinks d fs o1).1 p =
        ((fixSymlinks d fs o1).1, false) := by
      unfold fixStep
      cases hl : lookupFS (fixSymlinks d fs o1).1 p with
      | none => rfl
      | some e =>
        cases e with
        | file => rfl
        | dir => rfl
        | symlink tv =>
          cases tv with
          | rel r => rfl
          | abs tt =>
            rw [hframe1] at hl
            exact absurd hl (hnab tt)
    exact fixSymlinks_around_noop d fs o1 o2 p h1 h2 hstep

theorem C6_witness :
    ["d", "a"] ∈ (fixSymlinks ["d"] simpleFS [["d", "a"], ["d", "c"]]).2 ∧
    lookupFS (fixSymlinks ["d"] simpleFS [["d", "a"], ["d", "c"]]).1 ["d", "a"] =
      some (Entry.symlink (LinkVal.rel ["c"])) := by
  have h := C6_repair_frame ["d"] simpleFS [] [["d", "c"]] ["d", "a"]
    (by simp) (by decide)
  have hmut := h.2.1 ["c"] rfl
  have hcond : existsFS (fixSymlinks ["d"] simpleFS []).1 FUEL (["d"] ++ ["c"]) =
      true := by decide
  rw [if_pos hcond] at hmut
  exact hmut

end SnapcraftRepo
